import Mathlib

set_option maxRecDepth 10000

/-
Verification of the replay engine of bin/vtscope.py (hterm repository).

Bytes of the canned data are modelled as `List Nat`; Python 2 byte strings
become byte lists, and regular expressions of the fixed recognizer table are
embedded as explicit scanning functions that reproduce the semantics of the
compiled patterns (lazy dot excludes newline, `^` anchors at the true start
of the string, alternation tries its branches left to right).  All scans
carry an explicit fuel argument that the wrappers instantiate with a bound
large enough to never be hit, so every definition is executable.
-/

namespace VTScope

/-- Bytes of an ASCII string literal, used for the fixed markers of the
capture header and for the recognizer category tags. -/
def strBytes (s : String) : List Nat := s.data.map Char.toNat

/-- Python slice data[a:b] on byte lists with natural bounds: clipped at the
end of the list and empty when b is at most a. -/
def pySlice (data : List Nat) (a b : Nat) : List Nat := (data.drop a).take (b - a)

/-- MAX_TEXT constant of vtscope.py: the preview truncation length, also used
as the lookahead window when no escape recognizer matches. -/
def MAX_TEXT : Nat := 15

/-- Scan for the final byte of a CSI sequence.  This is the tail of the
pattern [.*?[@-~] once the opening bracket has been consumed: the lazy dot
matches any byte except a newline, and the final-byte class is the range
0x40 to 0x7e.  Returns the end offset of the regex match. -/
def csiScanA (data : List Nat) : Nat → Nat → Option Nat
  | 0, _ => none
  | fuel + 1, i =>
      match data.get? i with
      | none => none
      | some b =>
          if 0x40 ≤ b ∧ b ≤ 0x7e then some (i + 1)
          else if b = 0x0a then none
          else csiScanA data fuel (i + 1)

/-- Scan for the string terminator of an OSC/PM/DCS/APC style sequence.  This
is the tail .*?(1b 5c or 07): at each position the two terminator branches
are tried first, then the lazy dot consumes one byte provided it is not a
newline. -/
def stScanA (data : List Nat) : Nat → Nat → Option Nat
  | 0, _ => none
  | fuel + 1, i =>
      match data.get? i with
      | none => none
      | some b =>
          if b = 0x1b ∧ data.get? (i + 1) = some 0x5c then some (i + 2)
          else if b = 0x07 then some (i + 1)
          else if b = 0x0a then none
          else stScanA data fuel (i + 1)

/-- Control Sequence Introducer recognizer: the pattern [.*?[@-~] of
re_escapes, anchored at pos. -/
def matchCSI (data : List Nat) (pos : Nat) : Option Nat :=
  if data.get? pos = some 0x5b then csiScanA data data.length (pos + 1) else none

/-- Operating System Command recognizer: the pattern ].*?(1b 5c or 07). -/
def matchOSC (data : List Nat) (pos : Nat) : Option Nat :=
  if data.get? pos = some 0x5d then stScanA data data.length (pos + 1) else none

/-- Privacy Message recognizer.  The source pattern is written with a bare ^
which the regex engine treats as a start-of-string anchor rather than as the
literal caret, so the pattern can only ever match at position 0, where the
lazy dot then scans for the string terminator. -/
def matchPM (data : List Nat) (pos : Nat) : Option Nat :=
  if pos = 0 then stScanA data data.length pos else none

/-- Device Control String recognizer: the pattern P.*?(1b 5c or 07). -/
def matchDCS (data : List Nat) (pos : Nat) : Option Nat :=
  if data.get? pos = some 0x50 then stScanA data data.length (pos + 1) else none

/-- Application Program Control recognizer: the pattern with a low line
introducer followed by .*?(1b 5c or 07). -/
def matchAPC (data : List Nat) (pos : Nat) : Option Nat :=
  if data.get? pos = some 0x5f then stScanA data data.length (pos + 1) else none

/-- DEC private sequence recognizer: a number sign followed by one byte that
is not the escape byte. -/
def matchDEC (data : List Nat) (pos : Nat) : Option Nat :=
  if data.get? pos = some 0x23 then
    match data.get? (pos + 1) with
    | some b => if b = 0x1b then none else some (pos + 2)
    | none => none
  else none

/-- Character set control recognizer: a percent sign followed by one byte
that is not the escape byte. -/
def matchCHR (data : List Nat) (pos : Nat) : Option Nat :=
  if data.get? pos = some 0x25 then
    match data.get? (pos + 1) with
    | some b => if b = 0x1b then none else some (pos + 2)
    | none => none
  else none

/-- Graphic character set recognizer: the class of the eight bytes 0x28 to
0x2f (parenthesis pair, asterisk, the range plus to full stop, solidus)
followed by one byte that is not the escape byte. -/
def matchGRA (data : List Nat) (pos : Nat) : Option Nat :=
  match data.get? pos with
  | some b =>
      if 0x28 ≤ b ∧ b ≤ 0x2f then
        match data.get? (pos + 1) with
        | some b2 => if b2 = 0x1b then none else some (pos + 2)
        | none => none
      else none
  | none => none

/-- Generic escape recognizer: any single byte that is not the escape byte. -/
def matchESC (data : List Nat) (pos : Nat) : Option Nat :=
  match data.get? pos with
  | some b => if b = 0x1b then none else some (pos + 1)
  | none => none

/-- The ordered recognizer table re_escapes of vtscope.py; classification
tries the entries top to bottom and the first match wins. -/
def re_escapes : List (String × (List Nat → Nat → Option Nat)) :=
  [("CSI", matchCSI), ("OSC", matchOSC), ("PM", matchPM), ("DCS", matchDCS),
   ("APC", matchAPC), ("DEC", matchDEC), ("CHR", matchCHR), ("GRA", matchGRA),
   ("ESC", matchESC)]

/-- First matching recognizer of a table, with its category tag and the end
offset of its match. -/
def firstMatch (data : List Nat) (pos : Nat) :
    List (String × (List Nat → Nat → Option Nat)) → Option (String × Nat)
  | [] => none
  | (tag, m) :: rest =>
      match m data pos with
      | some e => some (tag, e)
      | none => firstMatch data pos rest

/-- Classification of the escape sequence starting just before pos: the loop
over re_escapes inside find_next_chunk, where pos is start_position + 1. -/
def classifyEsc (data : List Nat) (pos : Nat) : Option (String × Nat) :=
  firstMatch data pos re_escapes

/-- The scan data.find(1b, i) of the plain-text branch: index of the first
escape byte at or after i, with the -1 result already folded to the length
of the data as find_next_chunk does. -/
def findEscA (data : List Nat) : Nat → Nat → Nat
  | 0, _ => data.length
  | fuel + 1, i =>
      match data.get? i with
      | none => data.length
      | some b => if b = 0x1b then i else findEscA data fuel (i + 1)

/-- Wrapper for the escape-byte scan with sufficient fuel. -/
def findEsc (data : List Nat) (i : Nat) : Nat := findEscA data (data.length + 1) i

/-- The cursor fields start_position and end_position of VTScope. -/
structure Cursor where
  start : Nat
  stop : Nat
deriving DecidableEq, Repr

/-- What find_next_chunk reported: the terminal state (empty snippet), an
escape chunk with its category tag and whether the miss diagnostic was
printed, or a plain text chunk. -/
inductive ChunkKind where
  | terminal : ChunkKind
  | escape : String → Bool → ChunkKind
  | plain : ChunkKind
deriving DecidableEq, Repr

/-- find_next_chunk of vtscope.py: sets start_position to end_position, then
either reports the terminal state, classifies an escape sequence (falling
back to the unknown tag and a MAX_TEXT lookahead window when no recognizer
matches, with a diagnostic), or scans for the next escape byte to delimit a
plain text run. -/
def findNextChunk (data : List Nat) (c : Cursor) : Cursor × ChunkKind :=
  let start := c.stop
  if start ≥ data.length then (⟨start, c.stop⟩, ChunkKind.terminal)
  else if data.get? start = some 0x1b then
    match classifyEsc data (start + 1) with
    | some (tag, e) => (⟨start, e⟩, ChunkKind.escape tag false)
    | none => (⟨start, start + MAX_TEXT⟩, ChunkKind.escape "???" true)
  else (⟨start, findEsc data start⟩, ChunkKind.plain)

/-- The sequence of chunk ranges produced by repeatedly calling
find_next_chunk from end position e until the terminal state; the fuel is
instantiated by `chunks` with a bound that is never reached. -/
def chunksFromA (data : List Nat) : Nat → Nat → List (Nat × Nat)
  | 0, _ => []
  | fuel + 1, e =>
      if e < data.length then
        (e, (findNextChunk data ⟨e, e⟩).1.stop)
          :: chunksFromA data fuel (findNextChunk data ⟨e, e⟩).1.stop
      else []

/-- All chunk ranges of a payload, starting from start = end = 0. -/
def chunks (data : List Nat) : List (Nat × Nat) := chunksFromA data (data.length + 1) 0

/-- Adjacency check for a chunk list: every range starts where the previous
one stopped (the first at e) and is nonempty. -/
def isChain : Nat → List (Nat × Nat) → Bool
  | _, [] => true
  | e, (a, b) :: rest => a == e && decide (e < b) && isChain b rest

/-- Final end position of a chunk list, e when the list is empty. -/
def lastEnd (e : Nat) (cs : List (Nat × Nat)) : Nat := cs.foldl (fun _ p => p.2) e

/-- A connected client: an identifier for bookkeeping and a flag telling
whether a write to it raises IOError (the client appears disconnected). -/
structure Client where
  id : Nat
  fails : Bool
deriving DecidableEq, Repr

/-- The loop body of VTScope.send: iterate the client list from index i down
to 1 (1-based), writing data[start_position:end_position] to each client;
a failing write removes that client (safe because the loop runs over
decreasing indices) and reports its 1-based ordinal.  Returns the remaining
client list, the deliveries (client id, bytes) in send order, and the
reported ordinals in print order. -/
def sendIdx (payload : List Nat) : List Client → Nat → List Client × List (Nat × List Nat) × List Nat
  | clients, 0 => (clients, [], [])
  | clients, i + 1 =>
      match clients.get? i with
      | none => (clients, [], [])
      | some cl =>
          if cl.fails then
            ((sendIdx payload (clients.eraseIdx i) i).1,
             (sendIdx payload (clients.eraseIdx i) i).2.1,
             (i + 1) :: (sendIdx payload (clients.eraseIdx i) i).2.2)
          else
            ((sendIdx payload clients i).1,
             (cl.id, payload) :: (sendIdx payload clients i).2.1,
             (sendIdx payload clients i).2.2)

/-- VTScope.send: the given argument is accepted but never used, because the
body writes self.data[self.start_position:self.end_position] to every client
no matter what string it was handed. -/
def send (data : List Nat) (cur : Cursor) (clients : List Client) (_given : List Nat) :
    List Client × List (Nat × List Nat) × List Nat :=
  sendIdx (pySlice data cur.start cur.stop) clients clients.length

/-- A bookmark parsed from an OFFSET line of the capture header. -/
structure Bookmark where
  offset : Nat
  lines : Nat
  row : Nat
  column : Nat
deriving DecidableEq, Repr

/-- The replay session state: the canned data, the bookmark list stops, the
cursor, the connected clients and the per-character delay in milliseconds. -/
structure Session where
  data : List Nat
  stops : List Bookmark
  cursor : Cursor
  clients : List Client
  delay_ms : Nat
deriving DecidableEq, Repr

/-- The per-character branch of broadcast_chunk: for each byte of the chunk
call send with that single byte (which send then ignores) and sleep; the
client list is threaded through because failing clients are pruned. -/
def bcastChars (data : List Nat) (cur : Cursor) :
    List Nat → List Client → List Client × List (Nat × List Nat) × List Nat
  | [], cls => (cls, [], [])
  | ch :: rest, cls =>
      let r := send data cur cls [ch]
      let r2 := bcastChars data cur rest r.1
      (r2.1, r.2.1 ++ r2.2.1, r.2.2 ++ r2.2.2)

/-- VTScope.broadcast_chunk: with no delay a single send of the chunk,
otherwise one send per byte of the chunk with a sleep in between (the sleep
itself has no state effect and is not modelled). -/
def broadcast_chunk (s : Session) : List Client × List (Nat × List Nat) × List Nat :=
  if s.delay_ms = 0 then
    send s.data s.cursor s.clients (pySlice s.data s.cursor.start s.cursor.stop)
  else
    bcastChars s.data s.cursor (pySlice s.data s.cursor.start s.cursor.stop) s.clients

/-- All bytes a given client id received from a delivery list. -/
def clientBytes (i : Nat) (dels : List (Nat × List Nat)) : List Nat :=
  ((dels.filter (fun d => d.1 == i)).map Prod.snd).flatten

/-- cmd_reset: set start and end position to 0, then show_next_chunk, whose
find_next_chunk call advances the cursor onto the first chunk. -/
def cmd_reset (s : Session) : Session :=
  { s with cursor := (findNextChunk s.data ⟨0, 0⟩).1 }

/-- The while loop of cmd_step: broadcast the current range, advance with
show_next_chunk, stop when the data is exhausted, else decrement the count.
Returns the final session and all deliveries. -/
def stepLoop : Nat → Session → Session × List (Nat × List Nat)
  | 0, s => (s, [])
  | count + 1, s =>
      let b := broadcast_chunk s
      let s2 := { s with clients := b.1, cursor := (findNextChunk s.data s.cursor).1 }
      if s2.cursor.start ≥ s2.data.length then (s2, b.2.1)
      else
        let r := stepLoop count s2
        (r.1, b.2.1 ++ r.2)

/-- cmd_step: refuse when already at the end of the data, otherwise run the
step loop the given number of times. -/
def cmd_step (s : Session) (count : Nat) : Session × List (Nat × List Nat) :=
  if s.cursor.start ≥ s.data.length then (s, [])
  else stepLoop count s

/-- cmd_bstep: force end_position to start_position plus the count; the
source then compares the result against the data length with equality and
reassigns the same value, a clamp that never changes anything; finally
delegate to cmd_step with one step. -/
def cmd_bstep (s : Session) (arg : Option Nat) : Session × List (Nat × List Nat) :=
  let count := arg.getD 1
  let e := s.cursor.start + count
  let e2 := if e = s.data.length then s.data.length else e
  cmd_step { s with cursor := ⟨s.cursor.start, e2⟩ } 1

/-- Argument of cmd_seek: a plain offset, or a percent-prefixed 1-based
bookmark index. -/
inductive SeekArg where
  | offset : Nat → SeekArg
  | mark : Nat → SeekArg
deriving DecidableEq, Repr

/-- The while loop of cmd_seek: while end_position is at most the target,
broadcast the current chunk and advance.  The loop of the source has no
other exit, so it need not terminate; fuel exhaustion with the guard still
true is reported as none. -/
def seekLoop (pos : Nat) : Nat → Session → Option (Session × List (Nat × List Nat))
  | fuel, s =>
      if s.cursor.stop ≤ pos then
        match fuel with
        | 0 => none
        | fuel2 + 1 =>
            match seekLoop pos fuel2
                { s with clients := (broadcast_chunk s).1,
                         cursor := (findNextChunk s.data s.cursor).1 } with
            | none => none
            | some (sf, d) => some (sf, (broadcast_chunk s).2.1 ++ d)
      else some (s, [])

/-- Resolution of the cmd_seek argument to a target offset: a plain offset
stands for itself; a percent argument is a 1-based index into the stops
list, out of range (below 1 or above the list length) resolving to none.
The getD default is never reached because the index is in range there. -/
def resolveSeekArg (s : Session) : SeekArg → Option Nat
  | SeekArg.offset n => some n
  | SeekArg.mark i =>
      if i < 1 ∨ s.stops.length < i then none
      else some ((s.stops.get? (i - 1)).getD ⟨0, 0, 0, 0⟩).offset

/-- cmd_seek: error out (message, no state change, no broadcast) when there
is no data, when the bookmark index is out of range, or when the target lies
past the end of the data; reset first when the target is at or before
start_position; then run the seek loop.  The some result carries the final
session, the deliveries and the error message if any; none means the loop
ran out of fuel. -/
def cmd_seek (fuel : Nat) (s : Session) (arg : SeekArg) :
    Option (Session × List (Nat × List Nat) × Option String) :=
  if s.data.isEmpty then some (s, [], some "No data.")
  else
    match resolveSeekArg s arg with
    | none => some (s, [], some "No such stop.")
    | some pos =>
        if pos > s.data.length then some (s, [], some "Seek past end.")
        else
          match seekLoop pos fuel (if pos ≤ s.cursor.start then cmd_reset s else s) with
          | none => none
          | some (sf, d) => some (sf, d, none)

/-- Whitespace class of the regex engine for byte patterns: space, tab, line
feed, vertical tab, form feed, carriage return. -/
def isSpaceByte (b : Nat) : Bool :=
  b == 0x20 || b == 0x09 || b == 0x0a || b == 0x0b || b == 0x0c || b == 0x0d

/-- Decimal digit class. -/
def isDigitByte (b : Nat) : Bool := decide (0x30 ≤ b ∧ b ≤ 0x39)

/-- Literal byte sequence test at a position. -/
def litAt (data : List Nat) (i : Nat) (lit : List Nat) : Bool :=
  lit.isPrefixOf (data.drop i)

/-- Greedy whitespace run: index just after the run starting at i. -/
def skipWs (data : List Nat) : Nat → Nat → Nat
  | 0, i => i
  | fuel + 1, i =>
      match data.get? i with
      | some b => if isSpaceByte b then skipWs data fuel (i + 1) else i
      | none => i

/-- Greedy digit run accumulating a decimal value. -/
def digitRun (data : List Nat) : Nat → Nat → Nat → Nat × Nat
  | 0, i, acc => (acc, i)
  | fuel + 1, i, acc =>
      match data.get? i with
      | some b =>
          if isDigitByte b then digitRun data fuel (i + 1) (acc * 10 + (b - 0x30))
          else (acc, i)
      | none => (acc, i)

/-- A capture group of one or more digits: its value and the index after it,
or none when the byte at i is not a digit. -/
def readNum (data : List Nat) (i : Nat) : Option (Nat × Nat) :=
  match data.get? i with
  | some b =>
      if isDigitByte b then some (digitRun data data.length (i + 1) (b - 0x30))
      else none
  | none => none

/-- Backtracking for the trailing whitespace-then-line-end of the OFFSET
pattern: from j downward (not below the floor) find the first position where
the multiline end anchor holds, that is the end of the data or a position
holding a newline byte. -/
def trailBackA (data : List Nat) (floor : Nat) : Nat → Nat → Option Nat
  | 0, _ => none
  | fuel + 1, j =>
      if j = data.length ∨ data.get? j = some 0x0a then some j
      else if j ≤ floor then none
      else trailBackA data floor fuel (j - 1)

/-- The trailing part of the OFFSET pattern: greedy whitespace from i, then
backtrack until the multiline end anchor matches; the match end is the end
of the consumed whitespace. -/
def trailWs (data : List Nat) (i : Nat) : Option Nat :=
  let m := skipWs data data.length i
  trailBackA data i (m - i + 1) m

/-- Try the OFFSET bookmark pattern at position q: two at signs, whitespace,
the OFFSET field, whitespace, the LINES field, whitespace, the CURSOR field
as two comma-separated numbers, then trailing whitespace up to a line end.
Returns the bookmark and the match end. -/
def matchOffsetAt (data : List Nat) (q : Nat) : Option (Bookmark × Nat) :=
  if litAt data q (strBytes "@@") then
    let i1 := skipWs data data.length (q + 2)
    if q + 2 < i1 ∧ litAt data i1 (strBytes "OFFSET:") then
      match readNum data (i1 + 7) with
      | none => none
      | some (off, i2) =>
          let i3 := skipWs data data.length i2
          if i2 < i3 ∧ litAt data i3 (strBytes "LINES:") then
            match readNum data (i3 + 6) with
            | none => none
            | some (lns, i4) =>
                let i5 := skipWs data data.length i4
                if i4 < i5 ∧ litAt data i5 (strBytes "CURSOR:") then
                  match readNum data (i5 + 7) with
                  | none => none
                  | some (r, i6) =>
                      if data.get? i6 = some 0x2c then
                        match readNum data (i6 + 1) with
                        | none => none
                        | some (col, i7) =>
                            match trailWs data i7 with
                            | none => none
                            | some e => some (⟨off, lns, r, col⟩, e)
                      else none
                else none
          else none
    else none
  else none

/-- The multiline start anchor: position 0 or just after a newline byte. -/
def anchorAt (data : List Nat) (q : Nat) : Bool :=
  q == 0 || data.get? (q - 1) == some 0x0a

/-- re.search for the OFFSET pattern: try successive start positions from q
left to right, each anchored at a line start. -/
def searchOffsetA (data : List Nat) : Nat → Nat → Option (Bookmark × Nat)
  | 0, _ => none
  | fuel + 1, q =>
      if q > data.length then none
      else
        if anchorAt data q then
          match matchOffsetAt data q with
          | some r => some r
          | none => searchOffsetA data fuel (q + 1)
        else searchOffsetA data fuel (q + 1)

/-- The search loop of scan_header: collect bookmarks in encounter order,
restarting each search at the end of the previous match. -/
def scanHeaderA (header : List Nat) : Nat → Nat → List Bookmark
  | 0, _ => []
  | fuel + 1, q =>
      match searchOffsetA header (header.length + 2) q with
      | none => []
      | some (bm, e) => bm :: scanHeaderA header fuel e

/-- VTScope.scan_header: the bookmark list parsed from a header region;
scan_header assigns this list to self.stops, replacing it wholly. -/
def scan_header (header : List Nat) : List Bookmark :=
  scanHeaderA header (header.length + 1) 0

/-- Match for the header end marker followed by an optional carriage return
and a newline, at position q; returns the match end. -/
def matchHeaderEnd (raw : List Nat) (q : Nat) : Option Nat :=
  if litAt raw q (strBytes "@@ HEADER_END") then
    let r := q + 13
    if raw.get? r = some 0x0d ∧ raw.get? (r + 1) = some 0x0a then some (r + 2)
    else if raw.get? r = some 0x0a then some (r + 1)
    else none
  else none

/-- re.search for the header end marker: first match position left to
right. -/
def findHeaderEndA (raw : List Nat) : Nat → Nat → Option Nat
  | 0, _ => none
  | fuel + 1, q =>
      if q > raw.length then none
      else
        match matchHeaderEnd raw q with
        | some e => some e
        | none => findHeaderEndA raw fuel (q + 1)

/-- End of the header block of a raw capture, if the end marker occurs. -/
def findHeaderEnd (raw : List Nat) : Option Nat := findHeaderEndA raw (raw.length + 2) 0

/-- cmd_open: load the raw bytes as the data.  When the data begins with the
header start marker, look for the header end marker: if it is missing, keep
the whole input as data and print a diagnostic without touching the
bookmark list; otherwise scan the header region into self.stops and strip
it from the data.  When the data does not begin with the marker, neither
data slicing nor any bookmark update happens.  Finally cmd_reset runs.
Returns the new session and the diagnostic, if one was printed. -/
def cmd_open (s : Session) (raw : List Nat) : Session × Option String :=
  let s0 : Session := { s with data := raw }
  if (strBytes "@@ HEADER_START").isPrefixOf raw then
    match findHeaderEnd raw with
    | none => (cmd_reset s0, some "Unable to locate end of header.")
    | some e =>
        (cmd_reset { s0 with stops := scan_header (raw.take e), data := raw.drop e }, none)
  else (cmd_reset s0, none)

/-- Divergence of a seek command: no amount of fuel makes its loop reach the
exit condition. -/
def seekDiverges (s : Session) (arg : SeekArg) : Prop :=
  ∀ fuel, cmd_seek fuel s arg = none

/-- A session holding the payload 61 1b 63 with one healthy client, the
cursor on the first chunk [0, 1) as after open. -/
def sessBoundary0 : Session := ⟨[0x61, 0x1b, 0x63], [], ⟨0, 1⟩, [⟨0, false⟩], 0⟩

/-- The same session after seeking to offset 1: the cursor sits on the
escape chunk [1, 3). -/
def sessBoundary1 : Session := ⟨[0x61, 0x1b, 0x63], [], ⟨1, 3⟩, [⟨0, false⟩], 0⟩

/-- Sanity check from the specification: the payload 1b 5b 33 31 6d 48 65 6c
6c 6f 1b 5b 30 6d splits into a CSI chunk, the plain run Hello, and a final
CSI chunk. -/
theorem chunks_sample :
    chunks [0x1b, 0x5b, 0x33, 0x31, 0x6d, 0x48, 0x65, 0x6c, 0x6c, 0x6f,
            0x1b, 0x5b, 0x30, 0x6d] = [(0, 5), (5, 10), (10, 14)] := by decide

/-- Sanity check: scan_header on the header block of the specification
example yields exactly one bookmark. -/
theorem scan_header_sample :
    scan_header (strBytes "@@ HEADER_START\n@@ OFFSET:5 LINES:1 CURSOR:0,5\n@@ HEADER_END\n") =
      [⟨5, 1, 0, 5⟩] := by decide

/-- A successful CSI scan ends strictly after its start. -/
theorem csiScanA_lt (data : List Nat) :
    ∀ fuel i e, csiScanA data fuel i = some e → i < e := by
  intro fuel
  induction fuel with
  | zero => intro i e h; simp [csiScanA] at h
  | succ f ih =>
      intro i e h
      rw [csiScanA] at h
      split at h
      · exact absurd h (by simp)
      · split at h
        · have := Option.some.inj h; omega
        · split at h
          · exact absurd h (by simp)
          · have := ih (i + 1) e h; omega

/-- A successful string-terminator scan ends strictly after its start. -/
theorem stScanA_lt (data : List Nat) :
    ∀ fuel i e, stScanA data fuel i = some e → i < e := by
  intro fuel
  induction fuel with
  | zero => intro i e h; simp [stScanA] at h
  | succ f ih =>
      intro i e h
      rw [stScanA] at h
      split at h
      · exact absurd h (by simp)
      · split at h
        · have := Option.some.inj h; omega
        · split at h
          · have := Option.some.inj h; omega
          · split at h
            · exact absurd h (by simp)
            · have := ih (i + 1) e h; omega

/-- Every recognizer of the escape table ends strictly after the position it
matched at. -/
theorem re_escapes_lt (data : List Nat) (pos : Nat) :
    ∀ p ∈ re_escapes, ∀ e, p.2 data pos = some e → pos < e := by
  intro p hp e he
  have hcsi : ∀ e2, csiScanA data data.length (pos + 1) = some e2 → pos < e2 := by
    intro e2 h2
    exact Nat.lt_of_succ_lt (csiScanA_lt data data.length (pos + 1) e2 h2)
  have hst : ∀ e2, stScanA data data.length (pos + 1) = some e2 → pos < e2 := by
    intro e2 h2
    exact Nat.lt_of_succ_lt (stScanA_lt data data.length (pos + 1) e2 h2)
  simp only [re_escapes, List.mem_cons, List.not_mem_nil, or_false] at hp
  rcases hp with h | h | h | h | h | h | h | h | h
  all_goals subst h
  all_goals simp only [matchCSI, matchOSC, matchPM, matchDCS, matchAPC, matchDEC,
    matchCHR, matchGRA, matchESC] at he
  · split at he
    · exact hcsi e he
    · exact absurd he (by simp)
  · split at he
    · exact hst e he
    · exact absurd he (by simp)
  · split at he
    · exact stScanA_lt data data.length pos e he
    · exact absurd he (by simp)
  · split at he
    · exact hst e he
    · exact absurd he (by simp)
  · split at he
    · exact hst e he
    · exact absurd he (by simp)
  · split at he
    · split at he
      · split at he
        · exact absurd he (by simp)
        · have := Option.some.inj he; omega
      · exact absurd he (by simp)
    · exact absurd he (by simp)
  · split at he
    · split at he
      · split at he
        · exact absurd he (by simp)
        · have := Option.some.inj he; omega
      · exact absurd he (by simp)
    · exact absurd he (by simp)
  · split at he
    · split at he
      · split at he
        · split at he
          · exact absurd he (by simp)
          · have := Option.some.inj he; omega
        · exact absurd he (by simp)
      · exact absurd he (by simp)
    · exact absurd he (by simp)
  · split at he
    · split at he
      · exact absurd he (by simp)
      · have := Option.some.inj he; omega
    · exact absurd he (by simp)

/-- A first match in a table of recognizers that all end strictly after the
match position itself ends strictly after the match position. -/
theorem firstMatch_lt (data : List Nat) (pos : Nat) :
    ∀ L, (∀ p ∈ L, ∀ e, p.2 data pos = some e → pos < e) →
      ∀ tag e, firstMatch data pos L = some (tag, e) → pos < e := by
  intro L
  induction L with
  | nil => intro _ tag e h; simp [firstMatch] at h
  | cons p rest ih =>
      intro hall tag e h
      obtain ⟨t, m⟩ := p
      rw [firstMatch] at h
      split at h
      · rename_i e2 hm
        have h2 := Option.some.inj h
        have he2 : e2 = e := congrArg Prod.snd h2
        subst he2
        exact hall (t, m) (List.mem_cons_self _ _) e2 hm
      · rename_i hm
        exact ih (fun q hq => hall q (List.mem_cons_of_mem _ hq)) tag e h

/-- A successful classification ends strictly after the classification
position. -/
theorem classifyEsc_lt (data : List Nat) (pos : Nat) (tag : String) (e : Nat)
    (h : classifyEsc data pos = some (tag, e)) : pos < e :=
  firstMatch_lt data pos re_escapes (re_escapes_lt data pos) tag e h

/-- The escape-byte scan never stops before the position it starts at,
unless it reports the data length. -/
theorem findEscA_ge (data : List Nat) :
    ∀ fuel i, i ≤ findEscA data fuel i ∨ findEscA data fuel i = data.length := by
  intro fuel
  induction fuel with
  | zero => intro i; right; rfl
  | succ f ih =>
      intro i
      rw [findEscA]
      split
      · right; rfl
      · split
        · left; exact Nat.le_refl i
        · rcases ih (i + 1) with h | h
          · left; omega
          · right; exact h

/-- Advancing from a non-terminal state (the old end position is inside the
data) strictly increases the end position. -/
theorem findNextChunk_stop_lt (data : List Nat) (c : Cursor)
    (h : c.stop < data.length) : c.stop < (findNextChunk data c).1.stop := by
  simp only [findNextChunk]
  split
  · omega
  · split
    · split
      · rename_i tag e hc
        exact Nat.lt_of_succ_lt (classifyEsc_lt data (c.stop + 1) tag e hc)
      · simp [MAX_TEXT]
    · simp only
      rw [findEsc, findEscA]
      split
      · exact h
      · rename_i b hb2
        split
        · rename_i hb27
          rename_i hesc _
          exact absurd (hb27 ▸ hb2) hesc
        · rcases findEscA_ge data data.length (c.stop + 1) with h2 | h2
          · omega
          · omega

/-- Advancing from a terminal state (the old end position is at or past the
end of the data) moves start onto end and leaves end unchanged. -/
theorem findNextChunk_terminal (data : List Nat) (c : Cursor) (h : c.stop ≥ data.length) :
    (findNextChunk data c).1 = ⟨c.stop, c.stop⟩ := by
  simp only [findNextChunk]
  rw [if_pos h]

/-- The chunk list from any end position is a chain: adjacent nonempty
ranges. -/
theorem isChain_chunksFromA (data : List Nat) :
    ∀ fuel e, isChain e (chunksFromA data fuel e) = true := by
  intro fuel
  induction fuel with
  | zero => intro e; rfl
  | succ f ih =>
      intro e
      rw [chunksFromA]
      split
      · rename_i hlt
        have hstop : e < (findNextChunk data ⟨e, e⟩).1.stop :=
          findNextChunk_stop_lt data ⟨e, e⟩ hlt
        simp [isChain, ih, hstop]
      · rfl

/-- With enough fuel the chunk list from e ends at or past the end of the
data. -/
theorem cover_chunksFromA (data : List Nat) :
    ∀ fuel e, data.length ≤ fuel + e → data.length ≤ lastEnd e (chunksFromA data fuel e) := by
  intro fuel
  induction fuel with
  | zero => intro e h; simpa [chunksFromA, lastEnd] using h
  | succ f ih =>
      intro e h
      rw [chunksFromA]
      split
      · rename_i hlt
        have hstop : e < (findNextChunk data ⟨e, e⟩).1.stop :=
          findNextChunk_stop_lt data ⟨e, e⟩ hlt
        have hrec := ih (findNextChunk data ⟨e, e⟩).1.stop (by omega)
        simpa [lastEnd] using hrec
      · rename_i hlt
        simp only [lastEnd, List.foldl_nil]
        omega

/-- C1 (amended): repeated find_next_chunk from start = end = 0 partitions
the prefix it covers: consecutive ranges are adjacent (each start equals the
previous end), nonempty hence pairwise non-overlapping, and the final end
position reaches at least len(payload), so no payload byte is skipped.  The
total can exceed len(payload): a final classification-miss chunk overshoots
the payload end, so consumption is not always exactly len(payload). -/
theorem claim1_partition (data : List Nat) :
    isChain 0 (chunks data) = true ∧ data.length ≤ lastEnd 0 (chunks data) :=
  ⟨isChain_chunksFromA data (data.length + 1) 0,
   cover_chunksFromA data (data.length + 1) 0 (by omega)⟩

/-- C1 counterexample: on the two-byte payload 1b 1b the single chunk is
[0, 15) because no recognizer matches the second escape byte and the
lookahead window is used, so the chunk ranges consume 15 bytes, not
len(payload) = 2. -/
theorem claim1_cx :
    chunks [0x1b, 0x1b] = [(0, 15)] ∧ lastEnd 0 (chunks [0x1b, 0x1b]) = 15 ∧
      ([0x1b, 0x1b] : List Nat).length = 2 ∧ (15 : Nat) ≠ 2 := by decide

/-- The seek loop returns within its fuel when the target is strictly inside
the data and the fuel dominates the distance from the current end position
to the target. -/
theorem seekLoop_term (pos : Nat) :
    ∀ fuel (s : Session), pos < s.data.length → pos + 1 < fuel + s.cursor.stop →
      (seekLoop pos fuel s).isSome = true := by
  intro fuel
  induction fuel with
  | zero =>
      intro s h1 h2
      rw [seekLoop]
      rw [if_neg (by omega)]
      rfl
  | succ f ih =>
      intro s h1 h2
      rw [seekLoop]
      split
      · rename_i hle
        have hst : s.cursor.stop < s.data.length := by omega
        have hlt := findNextChunk_stop_lt s.data s.cursor hst
        have hrec := ih
          { s with clients := (broadcast_chunk s).1, cursor := (findNextChunk s.data s.cursor).1 }
          (by simpa using h1) (by simp; omega)
        cases hr : seekLoop pos f
            { s with clients := (broadcast_chunk s).1, cursor := (findNextChunk s.data s.cursor).1 } with
        | none => rw [hr] at hrec; exact absurd hrec (by simp)
        | some r => simp only [hr]; rfl
      · rfl

/-- cmd_seek with an offset target strictly inside the data returns within
any fuel of at least target + 2. -/
theorem cmd_seek_term (s : Session) (pos fuel : Nat)
    (h1 : pos < s.data.length) (h2 : pos + 2 ≤ fuel) :
    (cmd_seek fuel s (SeekArg.offset pos)).isSome = true := by
  have hne : s.data.isEmpty = false := by
    cases hd : s.data with
    | nil => rw [hd] at h1; simp at h1
    | cons a l => rfl
  have hterm : (seekLoop pos fuel (if pos ≤ s.cursor.start then cmd_reset s else s)).isSome
      = true := by
    refine seekLoop_term pos fuel _ ?_ ?_
    · split <;> simpa [cmd_reset] using h1
    · omega
  rw [cmd_seek, hne]
  simp only [Bool.false_eq_true, if_false, resolveSeekArg]
  rw [if_neg (by omega : ¬ pos > s.data.length)]
  cases hr : seekLoop pos fuel (if pos ≤ s.cursor.start then cmd_reset s else s) with
  | none => rw [hr] at hterm; exact absurd hterm (by simp)
  | some r => simp only [hr]; rfl

/-- C5 (amended): from every non-terminal cursor state, meaning the end
position the advance starts from is still inside the data (the condition the
terminal check of find_next_chunk tests after start has been set to end), a
single advance strictly increases end_position; consequently repeated
advancing reaches the terminal state in finitely many steps and the seek
loop terminates for every target strictly below len(payload).  The seek loop
does not terminate for target = len(payload) (see the counterexample). -/
theorem claim5_progress :
    (∀ (data : List Nat) (c : Cursor), c.stop < data.length →
        c.stop < (findNextChunk data c).1.stop) ∧
    (∀ (s : Session) (pos fuel : Nat), pos < s.data.length → pos + 2 ≤ fuel →
        (cmd_seek fuel s (SeekArg.offset pos)).isSome = true) :=
  ⟨findNextChunk_stop_lt, fun s pos fuel h1 h2 => cmd_seek_term s pos fuel h1 h2⟩

/-- Witness for C5 at a concrete input: on the one-byte payload 61 the
advance from (0, 0) strictly increases the end position, and seeking to
offset 0 with fuel 3 terminates. -/
theorem claim5_witness :
    (0 : Nat) < (findNextChunk [0x61] ⟨0, 0⟩).1.stop ∧
      (cmd_seek 3 ⟨[0x61], [], ⟨0, 0⟩, [], 0⟩ (SeekArg.offset 0)).isSome = true :=
  ⟨claim5_progress.1 [0x61] ⟨0, 0⟩ (by decide),
   claim5_progress.2 ⟨[0x61], [], ⟨0, 0⟩, [], 0⟩ 0 3 (by decide) (by decide)⟩

/-- The seek loop applied to the payload 61 62 with target 2 never leaves
the guard: the advance is terminal once end_position is 2, so end_position
stays 2 and the guard 2 ≤ 2 holds forever. -/
theorem seekLoop_stall :
    ∀ fuel (s : Session), s.data = [0x61, 0x62] → s.cursor.stop = 2 →
      seekLoop 2 fuel s = none := by
  intro fuel
  induction fuel with
  | zero =>
      intro s h1 h2
      rw [seekLoop]
      rw [if_pos (by omega)]
  | succ f ih =>
      intro s h1 h2
      rw [seekLoop]
      rw [if_pos (by omega)]
      have hterm : (findNextChunk s.data s.cursor).1 = ⟨s.cursor.stop, s.cursor.stop⟩ :=
        findNextChunk_terminal s.data s.cursor (by rw [h1, h2]; decide)
      have hrec := ih
        { s with clients := (broadcast_chunk s).1, cursor := (findNextChunk s.data s.cursor).1 }
        (by simpa using h1) (by simp [hterm, h2])
      simp only [hrec]

/-- C5 counterexample: seeking to target len(payload) = 2 on the payload
61 62 never terminates, whatever fuel the loop is given, because the guard
end_position ≤ target can never become false; so the claim that the
advance/seek loops never infinite-loop is false as stated. -/
theorem claim5_cx : seekDiverges ⟨[0x61, 0x62], [], ⟨0, 2⟩, [], 0⟩ (SeekArg.offset 2) := by
  intro fuel
  have h := seekLoop_stall fuel ⟨[0x61, 0x62], [], ⟨0, 2⟩, [], 0⟩ rfl rfl
  simp [cmd_seek, resolveSeekArg, h]

/-- C6 (amended): when the byte at the old end position is the escape byte
and no recognizer matches at pos = end + 1, find_next_chunk returns the
unknown tag with the diagnostic flag and sets the new end to the old end
plus MAX_TEXT, that is pos - 1 + MAX_TEXT rather than pos + MAX_TEXT. -/
theorem claim6_miss (data : List Nat) (c : Cursor)
    (h1 : data.get? c.stop = some 0x1b) (h2 : classifyEsc data (c.stop + 1) = none) :
    findNextChunk data c = (⟨c.stop, c.stop + MAX_TEXT⟩, ChunkKind.escape "???" true) := by
  have hlt : c.stop < data.length := by
    by_contra hge
    rw [List.get?_eq_none.mpr (by omega)] at h1
    exact absurd h1 (by simp)
  simp only [findNextChunk]
  rw [if_neg (by omega)]
  rw [if_pos h1]
  rw [h2]

/-- Witness for C6 at a concrete input: the payload 1b 1b misses every
recognizer at pos 1 and yields the unknown chunk ending at 0 + MAX_TEXT. -/
theorem claim6_witness :
    findNextChunk [0x1b, 0x1b] ⟨0, 0⟩ = (⟨0, 0 + MAX_TEXT⟩, ChunkKind.escape "???" true) :=
  claim6_miss [0x1b, 0x1b] ⟨0, 0⟩ (by decide) (by decide)

/-- C6 counterexample: on the payload 1b 1b the classification miss at
pos = 1 produces end offset 15, not pos + MAX_TEXT = 16 as the claim
states; the window is anchored at the escape introducer, not at pos. -/
theorem claim6_cx :
    findNextChunk [0x1b, 0x1b] ⟨0, 0⟩ = (⟨0, 15⟩, ChunkKind.escape "???" true) ∧
      (15 : Nat) ≠ 1 + MAX_TEXT := by decide

/-- C7: the code at the failing input 1b 5e 61 07 (escape, caret, body byte,
bell).  The Privacy Message pattern of re_escapes spells its caret as a bare
regex start anchor, which can never match at positions past 0, so the
sequence falls through to the generic single-byte recognizer: the chunk is
tagged ESC with end offset 2 instead of PM with end offset 4 as the spec
describes. -/
theorem claim7_pm_anchor :
    findNextChunk [0x1b, 0x5e, 0x61, 0x07] ⟨0, 0⟩ = (⟨0, 2⟩, ChunkKind.escape "ESC" false) ∧
      matchPM [0x1b, 0x5e, 0x61, 0x07] 1 = none ∧
      ChunkKind.escape "ESC" false ≠ ChunkKind.escape "PM" false := by decide

/-- C2: the code at the failing input.  On the payload 61 62 with the cursor
on the first (whole) chunk, bstep 5 leaves end_position = 5, which exceeds
len(payload) = 2 and differs from min(start + 5, len) = 2: the clamp of
cmd_bstep compares with equality and reassigns the same value, so it never
clamps, and the invariant end_position ≤ len(payload) is violated. -/
theorem claim2_bstep_unclamped :
    (cmd_bstep ⟨[0x61, 0x62], [], ⟨0, 2⟩, [], 0⟩ (some 5)).1.cursor.stop = 5 ∧
      ¬ ((cmd_bstep ⟨[0x61, 0x62], [], ⟨0, 2⟩, [], 0⟩ (some 5)).1.cursor.stop ≤
          (cmd_bstep ⟨[0x61, 0x62], [], ⟨0, 2⟩, [], 0⟩ (some 5)).1.data.length) ∧
      min (0 + 5) ([0x61, 0x62] : List Nat).length = 2 := by decide

/-- C3: the code at the failing input.  Broadcasting the chunk [0, 2) of the
payload 61 62 to one healthy client delivers 61 62 in bulk mode (delay 0)
but 61 62 61 62 with a positive delay, because send ignores the single byte
it is handed and transmits data[start_position:end_position] on every call,
once per byte of the chunk. -/
theorem claim3_delay_changes_bytes :
    clientBytes 0 (broadcast_chunk ⟨[0x61, 0x62], [], ⟨0, 2⟩, [⟨0, false⟩], 1⟩).2.1 =
        [0x61, 0x62, 0x61, 0x62] ∧
      clientBytes 0 (broadcast_chunk ⟨[0x61, 0x62], [], ⟨0, 2⟩, [⟨0, false⟩], 0⟩).2.1 =
        [0x61, 0x62] ∧
      ([0x61, 0x62, 0x61, 0x62] : List Nat) ≠ [0x61, 0x62] := by decide

/-- The seek loop never changes the data field of the session. -/
theorem seekLoop_data (pos : Nat) :
    ∀ fuel (s sf : Session) d, seekLoop pos fuel s = some (sf, d) → sf.data = s.data := by
  intro fuel
  induction fuel with
  | zero =>
      intro s sf d h
      rw [seekLoop] at h
      split at h
      · exact absurd h (by simp)
      · simp only [Option.some.injEq, Prod.mk.injEq] at h
        rw [← h.1]
  | succ f ih =>
      intro s sf d h
      rw [seekLoop] at h
      split at h
      · split at h
        · exact absurd h (by simp)
        · rename_i sf2 d2 hr
          have h4 := ih _ sf2 d2 hr
          simp only [Option.some.injEq, Prod.mk.injEq] at h
          rw [← h.1]
          exact h4
      · simp only [Option.some.injEq, Prod.mk.injEq] at h
        rw [← h.1]

/-- A seek loop that returned left the end position strictly past the
target. -/
theorem seekLoop_stop_gt (pos : Nat) :
    ∀ fuel (s sf : Session) d, seekLoop pos fuel s = some (sf, d) → pos < sf.cursor.stop := by
  intro fuel
  induction fuel with
  | zero =>
      intro s sf d h
      rw [seekLoop] at h
      split at h
      · exact absurd h (by simp)
      · rename_i hguard
        simp only [Option.some.injEq, Prod.mk.injEq] at h
        rw [← h.1]
        omega
  | succ f ih =>
      intro s sf d h
      rw [seekLoop] at h
      split at h
      · split at h
        · exact absurd h (by simp)
        · rename_i sf2 d2 hr
          have h4 := ih _ sf2 d2 hr
          simp only [Option.some.injEq, Prod.mk.injEq] at h
          rw [← h.1]
          exact h4
      · rename_i hguard
        simp only [Option.some.injEq, Prod.mk.injEq] at h
        rw [← h.1]
        omega

/-- C4 (amended): seek(target) is idempotent with respect to broadcasting
provided the first call leaves start_position strictly below the target,
which holds whenever the target is not itself a chunk boundary: the second
call then performs zero broadcasts and leaves the session unchanged.  When
the target equals the resulting start_position the code resets and replays
from the beginning instead (see the counterexample). -/
theorem claim4_idem (fuel f2 t : Nat) (s s1 : Session) (d : List (Nat × List Nat))
    (m : Option String)
    (h : cmd_seek fuel s (SeekArg.offset t) = some (s1, d, m))
    (hlt : s1.cursor.start < t) :
    (cmd_seek f2 s1 (SeekArg.offset t)).map (fun r => (r.1, r.2.1)) = some (s1, []) := by
  rw [cmd_seek] at h
  split at h
  · rename_i hemp
    simp only [Option.some.injEq, Prod.mk.injEq] at h
    obtain ⟨hs, hd, hm⟩ := h
    rw [cmd_seek]
    rw [if_pos (hs ▸ hemp)]
    simp
  · rename_i hemp
    simp only [resolveSeekArg] at h
    split at h
    · rename_i hgt
      simp only [Option.some.injEq, Prod.mk.injEq] at h
      obtain ⟨hs, hd, hm⟩ := h
      rw [cmd_seek]
      rw [if_neg (by rw [← hs]; exact hemp)]
      simp only [resolveSeekArg]
      rw [if_pos (by rw [← hs]; exact hgt)]
      simp [hs]
    · rename_i hgt
      split at h
      · exact absurd h (by simp)
      · rename_i sf df hr
        simp only [Option.some.injEq, Prod.mk.injEq] at h
        obtain ⟨hsf, hdf, hm⟩ := h
        have hdata : s1.data = s.data := by
          rw [← hsf]
          have h3 := seekLoop_data t fuel _ sf df hr
          rw [h3]
          split <;> rfl
        have hstop : t < s1.cursor.stop := by
          rw [← hsf]
          exact seekLoop_stop_gt t fuel _ sf df hr
        rw [cmd_seek]
        rw [if_neg (by rw [hdata]; exact hemp)]
        simp only [resolveSeekArg]
        rw [if_neg (by rw [hdata]; exact hgt)]
        rw [if_neg (by omega)]
        cases f2 with
        | zero =>
            rw [seekLoop]
            rw [if_neg (by omega)]
            rfl
        | succ f3 =>
            rw [seekLoop]
            rw [if_neg (by omega)]
            rfl

/-- Witness for C4 at a concrete input: on the payload 61 62 (one plain
chunk) seeking to offset 1 does not end on a chunk boundary, and a repeated
seek to offset 1 broadcasts nothing and changes nothing. -/
theorem claim4_witness :
    (cmd_seek 5 ⟨[0x61, 0x62], [], ⟨0, 2⟩, [], 0⟩ (SeekArg.offset 1)).map
        (fun r => (r.1, r.2.1)) = some (⟨[0x61, 0x62], [], ⟨0, 2⟩, [], 0⟩, []) :=
  claim4_idem 5 5 1 ⟨[0x61, 0x62], [], ⟨0, 2⟩, [], 0⟩ ⟨[0x61, 0x62], [], ⟨0, 2⟩, [], 0⟩
    [] none (by decide) (by decide)

/-- C4 counterexample: on the payload 61 1b 63 the chunk boundaries are 0, 1
and 3.  Seeking to offset 1 (a boundary) ends with start_position = 1; the
repeated seek to the same offset 1 then satisfies pos ≤ start_position,
resets, and replays the first chunk, broadcasting the byte 61 to the client
again instead of performing zero broadcasts. -/
theorem claim4_cx :
    cmd_seek 10 sessBoundary0 (SeekArg.offset 1) = some (sessBoundary1, [(0, [0x61])], none) ∧
      cmd_seek 10 sessBoundary1 (SeekArg.offset 1) = some (sessBoundary1, [(0, [0x61])], none) ∧
      ([(0, [0x61])] : List (Nat × List Nat)) ≠ [] := by
  refine ⟨by decide, by decide, by decide⟩

/-- C10: seek with a target beyond len(payload) and seek to a bookmark index
outside [1, len(stops)] each print a user error, change no session state at
all (the very same session is returned, clients and cursor included) and
broadcast nothing. -/
theorem claim10_errors (fuel t i : Nat) (s : Session) :
    (s.data.length < t → ∃ m, cmd_seek fuel s (SeekArg.offset t) = some (s, [], some m)) ∧
    ((i = 0 ∨ s.stops.length < i) → ∃ m, cmd_seek fuel s (SeekArg.mark i) = some (s, [], some m)) := by
  constructor
  · intro hgt
    rw [cmd_seek]
    split
    · exact ⟨"No data.", rfl⟩
    · refine ⟨"Seek past end.", ?_⟩
      simp only [resolveSeekArg]
      rw [if_pos (by omega)]
  · intro hout
    rw [cmd_seek]
    split
    · exact ⟨"No data.", rfl⟩
    · refine ⟨"No such stop.", ?_⟩
      simp only [resolveSeekArg]
      rw [if_pos (by omega)]

/-- Witness for C10 at a concrete input: on the one-byte payload 61 with no
bookmarks, seek 5 and seek to bookmark 3 each report an error, return the
unchanged session and broadcast nothing. -/
theorem claim10_witness :
    (∃ m, cmd_seek 1 ⟨[0x61], [], ⟨0, 1⟩, [], 0⟩ (SeekArg.offset 5) =
        some (⟨[0x61], [], ⟨0, 1⟩, [], 0⟩, [], some m)) ∧
    (∃ m, cmd_seek 1 ⟨[0x61], [], ⟨0, 1⟩, [], 0⟩ (SeekArg.mark 3) =
        some (⟨[0x61], [], ⟨0, 1⟩, [], 0⟩, [], some m)) :=
  ⟨(claim10_errors 1 5 3 ⟨[0x61], [], ⟨0, 1⟩, [], 0⟩).1 (by decide),
   (claim10_errors 1 5 3 ⟨[0x61], [], ⟨0, 1⟩, [], 0⟩).2 (Or.inr (by decide))⟩

/-- C9: the code at the failing input.  A session whose previous capture
populated the bookmark list opens a headerless capture (bytes of xyz) and a
capture with a start marker but no end marker: in both cases the whole
input becomes the payload (and the second case prints the diagnostic), but
the bookmark list still holds the stale bookmark of the previous capture
instead of being empty, because cmd_open only clears self.stops inside
scan_header, which runs only when a complete header is found. -/
theorem claim9_stale_stops :
    ((cmd_open ⟨[0x1b], [⟨5, 1, 0, 5⟩], ⟨0, 1⟩, [], 0⟩ (strBytes "xyz")).1.stops =
        [⟨5, 1, 0, 5⟩] ∧
      (cmd_open ⟨[0x1b], [⟨5, 1, 0, 5⟩], ⟨0, 1⟩, [], 0⟩ (strBytes "xyz")).1.data =
        strBytes "xyz" ∧
      (cmd_open ⟨[0x1b], [⟨5, 1, 0, 5⟩], ⟨0, 1⟩, [], 0⟩ (strBytes "xyz")).2 = none) ∧
    ((cmd_open ⟨[0x1b], [⟨5, 1, 0, 5⟩], ⟨0, 1⟩, [], 0⟩
          (strBytes "@@ HEADER_START\nx")).1.stops = [⟨5, 1, 0, 5⟩] ∧
      (cmd_open ⟨[0x1b], [⟨5, 1, 0, 5⟩], ⟨0, 1⟩, [], 0⟩
          (strBytes "@@ HEADER_START\nx")).1.data = strBytes "@@ HEADER_START\nx" ∧
      (cmd_open ⟨[0x1b], [⟨5, 1, 0, 5⟩], ⟨0, 1⟩, [], 0⟩
          (strBytes "@@ HEADER_START\nx")).2 = some "Unable to locate end of header.") ∧
    ([⟨5, 1, 0, 5⟩] : List Bookmark) ≠ [] := by decide

/-- Dropping a prefix-length bound below the split point of an append drops
inside the left part. -/
theorem drop_append_of_le {α : Type} :
    ∀ (l1 : List α) (n : Nat), n ≤ l1.length → ∀ l2 : List α,
      (l1 ++ l2).drop n = l1.drop n ++ l2 := by
  intro l1
  induction l1 with
  | nil =>
      intro n h l2
      have : n = 0 := by simpa using h
      subst this
      rfl
  | cons a l ih =>
      intro n h l2
      cases n with
      | zero => rfl
      | succ m => simpa using ih m (by simpa using h) l2

/-- Taking exactly the length of the left part of an append yields it. -/
theorem take_append_self {α : Type} (A B : List α) : (A ++ B).take A.length = A := by
  induction A with
  | nil => rfl
  | cons a A ih => simp [ih]

/-- Dropping one past the length of the left part of an append-cons skips
the middle element. -/
theorem drop_append_cons {α : Type} (A : List α) (x : α) (B : List α) :
    (A ++ x :: B).drop (A.length + 1) = B := by
  induction A with
  | nil => rfl
  | cons a A ih => simp [ih]

/-- Lookup at the length of the left part of an append-cons finds the middle
element. -/
theorem get?_append_cons {α : Type} (A : List α) (x : α) (B : List α) :
    (A ++ x :: B).get? A.length = some x := by
  induction A with
  | nil => rfl
  | cons a A ih => simpa using ih

/-- Erasing at the length of the left part of an append-cons removes exactly
the middle element. -/
theorem eraseIdx_append_cons {α : Type} (A : List α) (x : α) (B : List α) :
    (A ++ x :: B).eraseIdx A.length = A ++ B := by
  induction A with
  | nil => rfl
  | cons a A ih => simpa using ih

/-- The send loop over a stretch of healthy clients removes nobody, reports
nothing, and delivers the payload to the first i clients in reverse index
order. -/
theorem sendIdx_good (payload : List Nat) :
    ∀ (i : Nat) (clients : List Client), i ≤ clients.length →
      (∀ cl ∈ clients.take i, cl.fails = false) →
      sendIdx payload clients i =
        (clients, ((clients.take i).reverse).map (fun cl => (cl.id, payload)), []) := by
  intro i
  induction i with
  | zero => intro clients h1 h2; rfl
  | succ i ih =>
      intro clients h1 h2
      rw [sendIdx]
      split
      · rename_i hnone
        exact absurd (List.get?_eq_none.mp hnone) (by omega)
      · rename_i cl hcl
        have hcl2 : clients[i]? = some cl := by
          rw [← List.get?_eq_getElem?]; exact hcl
        have htake : clients.take (i + 1) = clients.take i ++ [cl] := by
          rw [List.take_succ, hcl2]
          rfl
        have hclgood : cl.fails = false :=
          h2 cl (by rw [htake]; exact List.mem_append_right _ (by simp))
        rw [if_neg (by simp [hclgood])]
        rw [ih clients (by omega)
          (fun c hc => h2 c (by rw [htake]; exact List.mem_append_left _ hc))]
        simp [htake]

/-- Processing indices j down to i over healthy clients only prepends their
deliveries, in reverse index order, to whatever processing i down to 1
produces. -/
theorem sendIdx_goodSeg (payload : List Nat) :
    ∀ (j i : Nat) (clients : List Client), i ≤ j → j ≤ clients.length →
      (∀ cl ∈ (clients.take j).drop i, cl.fails = false) →
      sendIdx payload clients j =
        ((sendIdx payload clients i).1,
         (((clients.take j).drop i).reverse).map (fun cl => (cl.id, payload)) ++
           (sendIdx payload clients i).2.1,
         (sendIdx payload clients i).2.2) := by
  intro j
  induction j with
  | zero =>
      intro i clients hij hlen hgood
      have hi : i = 0 := by omega
      subst hi
      simp
  | succ j ih =>
      intro i clients hij hlen hgood
      by_cases hi : i = j + 1
      · subst hi
        have hdrop : (clients.take (j + 1)).drop (j + 1) = [] :=
          List.drop_eq_nil_of_le (le_trans (List.length_take_le _ _) (Nat.le_refl _))
        rw [hdrop]
        simp
      · have hij2 : i ≤ j := by omega
        rw [sendIdx]
        split
        · rename_i hnone
          exact absurd (List.get?_eq_none.mp hnone) (by omega)
        · rename_i cl hcl
          have hcl2 : clients[j]? = some cl := by
            rw [← List.get?_eq_getElem?]; exact hcl
          have htake : clients.take (j + 1) = clients.take j ++ [cl] := by
            rw [List.take_succ, hcl2]
            rfl
          have hdrop : (clients.take (j + 1)).drop i = (clients.take j).drop i ++ [cl] := by
            rw [htake, drop_append_of_le _ i (by rw [List.length_take]; omega) _]
          have hclgood : cl.fails = false :=
            hgood cl (by rw [hdrop]; exact List.mem_append_right _ (by simp))
          rw [if_neg (by simp [hclgood])]
          rw [ih i clients hij2 (by omega)
            (fun c hc => hgood c (by rw [hdrop]; exact List.mem_append_left _ hc))]
          simp [hdrop]

/-- A broadcast to healthy clients only: nobody is removed, nothing is
reported, every client receives data[start:end] once, in reverse connection
order. -/
theorem send_all_good (data : List Nat) (cur : Cursor) (clients : List Client)
    (h : ∀ cl ∈ clients, cl.fails = false) :
    send data cur clients [] =
      (clients,
       (clients.reverse).map (fun cl => (cl.id, pySlice data cur.start cur.stop)), []) := by
  rw [send]
  rw [sendIdx_good _ clients.length clients (Nat.le_refl _)
    (by rw [List.take_length]; exact h)]
  rw [List.take_length]

/-- C8: a write failure of exactly one client during a broadcast is
contained.  The broadcaster (a total function: nothing propagates out of it)
walks the clients in reverse index order; the failing client is removed and
its 1-based ordinal reported, every other client stays attached in its
original order, and each surviving client receives exactly the delivery
(id, data[start:end]) it receives in the run where no client fails. -/
theorem claim8_contained (data : List Nat) (cur : Cursor) (A B : List Client) (bad : Client)
    (hbad : bad.fails = true) (hA : ∀ cl ∈ A, cl.fails = false)
    (hB : ∀ cl ∈ B, cl.fails = false) :
    send data cur (A ++ bad :: B) [] =
      (A ++ B,
       (B.reverse ++ A.reverse).map (fun cl => (cl.id, pySlice data cur.start cur.stop)),
       [A.length + 1]) ∧
    send data cur (A ++ ⟨bad.id, false⟩ :: B) [] =
      (A ++ ⟨bad.id, false⟩ :: B,
       (B.reverse ++ ⟨bad.id, false⟩ :: A.reverse).map
         (fun cl => (cl.id, pySlice data cur.start cur.stop)),
       []) := by
  constructor
  · rw [send]
    have hbadstep : sendIdx (pySlice data cur.start cur.stop) (A ++ bad :: B) (A.length + 1) =
        (A ++ B, (A.reverse).map (fun cl => (cl.id, pySlice data cur.start cur.stop)),
         [A.length + 1]) := by
      rw [sendIdx]
      split
      · rename_i hnone
        rw [get?_append_cons] at hnone
        exact absurd hnone (by simp)
      · rename_i cl hcl
        rw [get?_append_cons] at hcl
        have hclbad : bad = cl := Option.some.inj hcl
        subst hclbad
        rw [if_pos (by simp [hbad])]
        rw [eraseIdx_append_cons]
        rw [sendIdx_good _ A.length (A ++ B) (by simp)
          (by rw [take_append_self]; exact hA)]
        rw [take_append_self]
    have hBset : ∀ cl ∈ ((A ++ bad :: B).take (A ++ bad :: B).length).drop (A.length + 1),
        cl.fails = false := by
      rw [List.take_length, drop_append_cons]
      exact hB
    rw [sendIdx_goodSeg (pySlice data cur.start cur.stop)
      (A ++ bad :: B).length (A.length + 1) (A ++ bad :: B)
      (by simp) (Nat.le_refl _) hBset]
    rw [hbadstep, List.take_length, drop_append_cons]
    simp
  · rw [send_all_good data cur _ ?hgood]
    case hgood =>
      intro cl hcl
      rcases List.mem_append.mp hcl with h | h
      · exact hA cl h
      · rcases List.mem_cons.mp h with h2 | h2
        · rw [h2]
        · exact hB cl h2
    simp

/-- Witness for C8 at a concrete input: three clients on the one-byte chunk
[0, 1) of the payload 61, the middle client failing: the middle client alone
is removed with ordinal 2 reported, and clients 3 and 1 each receive the
byte 61, in reverse order. -/
theorem claim8_witness :
    send [0x61] ⟨0, 1⟩ [⟨1, false⟩, ⟨2, true⟩, ⟨3, false⟩] [] =
      ([⟨1, false⟩, ⟨3, false⟩], [(3, [0x61]), (1, [0x61])], [2]) := by
  have h := (claim8_contained [0x61] ⟨0, 1⟩ [⟨1, false⟩] [⟨3, false⟩] ⟨2, true⟩ rfl
    (by decide) (by decide)).1
  simpa [pySlice] using h

end VTScope
